import Mathlib

/-!
Verification of the MortgageCalculator repository's financial core.

The definitions below are shallow embeddings, in exact rational arithmetic,
of the pure computation functions of `src/mortgage_analyzer_app.py` (the
full analyzer) and, where a claim concerns them, of the `_basic` and
`_enhanced` variants.  Machine floats are modelled by `ℚ`; a Python
`ZeroDivisionError` is modelled by `Option` (`none` = raised fault).
-/

namespace Mortgage

/-- Embedding of `pmt` from `mortgage_analyzer_app.py` (lines 10-17), identical
in `mortgage_analyzer_app_enhanced.py` (lines 9-16): monthly rate
`r = rate/100/12`, number of periods `n = n_years*12`; the `n == 0` guard comes
before the `r == 0` straight-line division.  In `ℚ`, `x / 0 = 0`, so the one
remaining Python fault point (`(1+r)^n == 1` with `r ≠ 0`) returns a junk value
here; `pmt_checked` below models that fault explicitly. -/
def pmt (rate_annual_pct : ℚ) (n_years : ℕ) (principal : ℚ) : ℚ :=
  let r := rate_annual_pct / 100 / 12
  let n := n_years * 12
  if n = 0 then 0
  else if r = 0 then principal / (n : ℚ)
  else principal * (r * (1 + r) ^ n) / ((1 + r) ^ n - 1)

/-- The same computation as `pmt`, parametrised directly by the monthly rate
`r`; `pmt rate y P = pmtR (rate/100/12) (y*12) P` by `rfl`. -/
def pmtR (r : ℚ) (n : ℕ) (P : ℚ) : ℚ :=
  if n = 0 then 0
  else if r = 0 then P / (n : ℚ)
  else P * (r * (1 + r) ^ n) / ((1 + r) ^ n - 1)

theorem pmt_eq_pmtR (rate : ℚ) (y : ℕ) (P : ℚ) :
    pmt rate y P = pmtR (rate / 100 / 12) (y * 12) P := rfl

/-- Fault-aware version of the `pmt` of `mortgage_analyzer_app.py`: `none`
models a Python `ZeroDivisionError` (only possible when the amortization
denominator `(1+r)^n - 1` is zero, which the `n == 0` guard pre-empts for a
zero-length term). -/
def pmt_checked (rate_annual_pct : ℚ) (n_years : ℕ) (principal : ℚ) : Option ℚ :=
  let r := rate_annual_pct / 100 / 12
  let n := n_years * 12
  if n = 0 then some 0
  else if r = 0 then some (principal / (n : ℚ))
  else if (1 + r) ^ n - 1 = 0 then none
  else some (principal * (r * (1 + r) ^ n) / ((1 + r) ^ n - 1))

/-- Fault-aware embedding of `pmt` from `mortgage_analyzer_app_basic.py`
(lines 7-12): there is no leading `n == 0` guard; the `r == 0` branch returns
`principal / n if n else 0.0`, and otherwise the amortization formula divides
by `(1+r)^n - 1`, which is `0` when `n == 0` (Python raises
`ZeroDivisionError`, modelled by `none`). -/
def pmt_basic (rate_annual_pct : ℚ) (n_years : ℕ) (principal : ℚ) : Option ℚ :=
  let r := rate_annual_pct / 100 / 12
  let n := n_years * 12
  if r = 0 then some (if n ≠ 0 then principal / (n : ℚ) else 0)
  else if (1 + r) ^ n - 1 = 0 then none
  else some (principal * (r * (1 + r) ^ n) / ((1 + r) ^ n - 1))

/-- Embedding of `va_funding_fee_pct` from `mortgage_analyzer_app.py`
(lines 22-30), identical in `mortgage_analyzer_app_enhanced.py` (lines 21-28). -/
def va_funding_fee_pct (down_frac : ℚ) (first_use : Bool) : ℚ :=
  if ¬ first_use then
    if down_frac < 0.05 then 0.036
    else if down_frac < 0.10 then 0.0175
    else 0.015
  else
    if down_frac < 0.05 then 0.0215
    else if down_frac < 0.10 then 0.015
    else 0.0125

/-- Buydown scheme tags (`"Permanent"`, `"2-1"`, `"3-2-1"` in the source). -/
inductive BuydownScheme
  | Permanent
  | TwoOne
  | ThreeTwoOne
deriving DecidableEq

/-- Embedding of `temp_buydown_yearly_rates` from `mortgage_analyzer_app.py`
(lines 32-38). -/
def temp_buydown_yearly_rates (base_rate : ℚ) (scheme : BuydownScheme) : List ℚ :=
  match scheme with
  | .TwoOne => [base_rate - 2, base_rate - 1]
  | .ThreeTwoOne => [base_rate - 3, base_rate - 2, base_rate - 1]
  | .Permanent => []

/-- Inner accumulation of `present_value_of_diffs`: for each `(months, diff)`
entry the absolute month counter `m` advances one month at a time and each
month contributes `diff / (1+i)^m` when `i > 0`, else `diff`. -/
def pvAux (i : ℚ) : List (ℕ × ℚ) → ℕ → ℚ
  | [], _ => 0
  | (months, diff) :: rest, m =>
      (∑ k in Finset.range months,
        (if 0 < i then diff / (1 + i) ^ (m + k + 1) else diff)) +
      pvAux i rest (m + months)

/-- Embedding of `present_value_of_diffs` from `mortgage_analyzer_app.py`
(lines 40-48); the `term_years` parameter is unused there too.  The
`_enhanced` variant (lines 30-37) is the same function without that
parameter. -/
def present_value_of_diffs (diffs : List (ℕ × ℚ)) (base_rate_pct : ℚ)
    (_term_years : ℕ) : ℚ :=
  pvAux (base_rate_pct / 100 / 12) diffs 0

/-- The undiscounted total of the monthly differences: each `(months, diff)`
entry contributes `months * diff` (for the lists the app builds every entry
has `months = 12`, so this agrees with `buydown_cost_naive = sum(12*diff)`). -/
def undiscounted_sum (diffs : List (ℕ × ℚ)) : ℚ :=
  (diffs.map (fun p => (p.1 : ℚ) * p.2)).sum

/-- Embedding of `conv_ok` from `mortgage_analyzer_app.py` (line 203). -/
def conv_ok (credit_score : ℤ) (dti : ℚ) (min_credit_conv : ℤ)
    (max_dti_conv : ℚ) (recent_bk recent_fc : Bool) : Bool :=
  decide (min_credit_conv ≤ credit_score) && decide (dti ≤ max_dti_conv) &&
    !recent_bk && !recent_fc

/-- Embedding of `fha_ok` from `mortgage_analyzer_app.py` (line 204); note
that it reads neither `recent_bk` nor `recent_fc`. -/
def fha_ok (credit_score : ℤ) (dti : ℚ) (min_credit_fha : ℤ)
    (max_dti_fha : ℚ) : Bool :=
  decide (min_credit_fha ≤ credit_score) && decide (dti ≤ max_dti_fha)

/-- Occupancy selector values. -/
inductive Occupancy
  | Primary
  | SecondHome
  | Investment
deriving DecidableEq

/-- Embedding of `va_ok` from `mortgage_analyzer_app.py` (line 205). -/
def va_ok (va_eligible : Bool) (credit_score : ℤ) (dti : ℚ)
    (min_credit_va : ℤ) (max_dti_va : ℚ) (occ : Occupancy) : Bool :=
  va_eligible && decide (min_credit_va ≤ credit_score) &&
    decide (dti ≤ max_dti_va) && decide (occ = .Primary)

/-! ### Arithmetic facts about the payment formula -/

/-- The geometric sum `∑_{j<n} (1+r)^j` times `r` telescopes. -/
theorem geomS_mul (r : ℚ) (n : ℕ) :
    (∑ j in Finset.range n, (1 + r) ^ j) * r = (1 + r) ^ n - 1 := by
  have h := geom_sum_mul (1 + r) n
  simpa using h

theorem geomS_pos (r : ℚ) (n : ℕ) (hr : -1 ≤ r) (hn : 0 < n) :
    0 < ∑ j in Finset.range n, (1 + r) ^ j := by
  refine Finset.sum_pos' (fun i _ => pow_nonneg (by linarith) i) ?_
  exact ⟨0, Finset.mem_range.2 hn, by simp⟩

theorem one_le_one_add_pow (r : ℚ) (hr : 0 ≤ r) (n : ℕ) : 1 ≤ (1 + r) ^ n := by
  calc (1 : ℚ) = 1 ^ n := (one_pow n).symm
  _ ≤ (1 + r) ^ n := pow_le_pow_left (by norm_num) (by linarith) n

/-- The annuity identity: the scheduled payment times the annuity factor
equals the accumulated principal. -/
theorem pmtR_mul_geomS (r P : ℚ) (n : ℕ) (hr : -1 ≤ r) (hn : 0 < n) :
    pmtR r n P * (∑ j in Finset.range n, (1 + r) ^ j) = P * (1 + r) ^ n := by
  have hn0 : n ≠ 0 := hn.ne'
  have hcast : (n : ℚ) ≠ 0 := by exact_mod_cast hn0
  by_cases h0 : r = 0
  · subst h0
    have hp : pmtR 0 n P = P / (n : ℚ) := by simp [pmtR, hn0]
    rw [hp]
    simp only [add_zero, one_pow, Finset.sum_const, Finset.card_range,
      nsmul_eq_mul, mul_one]
    field_simp
  · have hp : pmtR r n P = P * (r * (1 + r) ^ n) / ((1 + r) ^ n - 1) := by
      simp [pmtR, hn0, h0]
    have hd : (1 + r) ^ n - 1 ≠ 0 := by
      rcases lt_or_gt_of_ne h0 with hneg | hpos
      · have h1 : (1 + r) ^ n < 1 := pow_lt_one₀ (by linarith) (by linarith) hn0
        linarith
      · have h1 : 1 < (1 + r) ^ n := one_lt_pow₀ (by linarith) hn0
        linarith
    have hSr : (∑ j in Finset.range n, (1 + r) ^ j) * r = (1 + r) ^ n - 1 :=
      geomS_mul r n
    rw [hp]
    field_simp
    linear_combination (P * (1 + r) ^ n) * hSr

theorem pmtR_eq_div (r P : ℚ) (n : ℕ) (hr : -1 ≤ r) (hn : 0 < n) :
    pmtR r n P = P * (1 + r) ^ n / (∑ j in Finset.range n, (1 + r) ^ j) := by
  have hS := geomS_pos r n hr hn
  rw [eq_div_iff (ne_of_gt hS)]
  exact pmtR_mul_geomS r P n hr hn

theorem pmtR_nonneg (r P : ℚ) (n : ℕ) (hr : 0 ≤ r) (hP : 0 ≤ P) :
    0 ≤ pmtR r n P := by
  rcases Nat.eq_zero_or_pos n with h | h
  · simp [pmtR, h]
  · rw [pmtR_eq_div r P n (by linarith) h]
    exact div_nonneg (mul_nonneg hP (by positivity)) (geomS_pos r n (by linarith) h).le

/-- The payment covers at least one month of interest on the full principal. -/
theorem interest_le_pmtR (r P : ℚ) (n : ℕ) (hr : 0 ≤ r) (hP : 0 ≤ P)
    (hn : 0 < n) : P * r ≤ pmtR r n P := by
  have hS := geomS_pos r n (by linarith) hn
  rw [pmtR_eq_div r P n (by linarith) hn, le_div_iff hS]
  have hSr : (∑ j in Finset.range n, (1 + r) ^ j) * r = (1 + r) ^ n - 1 :=
    geomS_mul r n
  have h1 : P * r * (∑ j in Finset.range n, (1 + r) ^ j)
      = P * ((1 + r) ^ n - 1) := by
    linear_combination P * hSr
  nlinarith [hP]

/-- Total nominal payments at least cover the principal. -/
theorem pmtR_total_ge (r P : ℚ) (n : ℕ) (hr : 0 ≤ r) (hP : 0 ≤ P)
    (hn : 0 < n) : P ≤ pmtR r n P * (n : ℚ) := by
  have hS := geomS_pos r n (by linarith) hn
  have hSle : (∑ j in Finset.range n, (1 + r) ^ j) ≤ (n : ℚ) * (1 + r) ^ n := by
    calc (∑ j in Finset.range n, (1 + r) ^ j)
        ≤ ∑ _j in Finset.range n, (1 + r) ^ n :=
          Finset.sum_le_sum (fun j hj =>
            pow_le_pow_right (by linarith) (Finset.mem_range.1 hj).le)
    _ = (n : ℚ) * (1 + r) ^ n := by
          simp [Finset.sum_const, Finset.card_range, nsmul_eq_mul]
  rw [pmtR_eq_div r P n (by linarith) hn, div_mul_eq_mul_div, le_div_iff hS]
  nlinarith [hP, one_le_one_add_pow r hr n]

theorem pmtR_zero_rate (P : ℚ) (n : ℕ) (hn : 0 < n) :
    pmtR 0 n P * (n : ℚ) = P := by
  have hn0 : n ≠ 0 := hn.ne'
  have hcast : (n : ℚ) ≠ 0 := by exact_mod_cast hn0
  have hp : pmtR 0 n P = P / (n : ℚ) := by simp [pmtR, hn0]
  rw [hp, div_mul_cancel₀ _ hcast]

/-- The payment is monotone in the monthly rate on `[-1, ∞)`. -/
theorem pmtR_mono (r₁ r₂ P : ℚ) (n : ℕ) (hP : 0 ≤ P) (h₁ : -1 ≤ r₁)
    (h₁₂ : r₁ ≤ r₂) (hn : 0 < n) : pmtR r₁ n P ≤ pmtR r₂ n P := by
  have h₂ : (-1 : ℚ) ≤ r₂ := le_trans h₁ h₁₂
  have hS₁ := geomS_pos r₁ n h₁ hn
  have hS₂ := geomS_pos r₂ n h₂ hn
  rw [pmtR_eq_div r₁ P n h₁ hn, pmtR_eq_div r₂ P n h₂ hn,
    div_le_div_iff hS₁ hS₂]
  have key : (1 + r₁) ^ n * (∑ j in Finset.range n, (1 + r₂) ^ j)
      ≤ (1 + r₂) ^ n * (∑ j in Finset.range n, (1 + r₁) ^ j) := by
    rw [Finset.mul_sum, Finset.mul_sum]
    refine Finset.sum_le_sum (fun j hj => ?_)
    have hj' : j ≤ n := (Finset.mem_range.1 hj).le
    have ha : (0 : ℚ) ≤ 1 + r₁ := by linarith
    have hb : (0 : ℚ) ≤ 1 + r₂ := by linarith
    have hab : (1 + r₁) ≤ (1 + r₂) := by linarith
    have hsplit : n = j + (n - j) := by omega
    rw [hsplit, pow_add, pow_add]
    have hpow : (1 + r₁) ^ (n - j) ≤ (1 + r₂) ^ (n - j) :=
      pow_le_pow_left ha hab (n - j)
    have hnn : (0 : ℚ) ≤ (1 + r₁) ^ j * (1 + r₂) ^ j :=
      mul_nonneg (pow_nonneg ha j) (pow_nonneg hb j)
    nlinarith [mul_le_mul_of_nonneg_left hpow hnn]
  calc P * (1 + r₁) ^ n * (∑ j in Finset.range n, (1 + r₂) ^ j)
      = P * ((1 + r₁) ^ n * (∑ j in Finset.range n, (1 + r₂) ^ j)) := by ring
  _ ≤ P * ((1 + r₂) ^ n * (∑ j in Finset.range n, (1 + r₁) ^ j)) :=
      mul_le_mul_of_nonneg_left key hP
  _ = P * (1 + r₂) ^ n * (∑ j in Finset.range n, (1 + r₁) ^ j) := by ring

theorem monthly_rate_zero_iff (R : ℚ) : R / 100 / 12 = 0 ↔ R = 0 := by
  rw [div_div]
  constructor
  · intro h
    rcases div_eq_zero_iff.1 h with h' | h'
    · exact h'
    · norm_num at h'
  · intro h; simp [h]

/-! ### Present value of buydown differences -/

theorem pvAux_zero_rate (l : List (ℕ × ℚ)) :
    ∀ m, pvAux 0 l m = undiscounted_sum l := by
  induction l with
  | nil => intro m; simp [pvAux, undiscounted_sum]
  | cons p rest ih =>
    intro m
    obtain ⟨months, diff⟩ := p
    simp only [pvAux, undiscounted_sum, List.map_cons, List.sum_cons]
    rw [ih (m + months)]
    simp [undiscounted_sum, Finset.sum_const, Finset.card_range, nsmul_eq_mul]

theorem pvAux_le (i : ℚ) (hi : 0 < i) :
    ∀ l : List (ℕ × ℚ), (∀ p ∈ l, 0 ≤ p.2) →
      ∀ m, pvAux i l m ≤ undiscounted_sum l := by
  intro l
  induction l with
  | nil => intro _ m; simp [pvAux, undiscounted_sum]
  | cons p rest ih =>
    intro hnn m
    obtain ⟨months, diff⟩ := p
    have hd : 0 ≤ diff := hnn (months, diff) (List.mem_cons_self _ _)
    have hrest := ih (fun q hq => hnn q (List.mem_cons_of_mem _ hq)) (m + months)
    have hterm : (∑ k in Finset.range months,
        (if 0 < i then diff / (1 + i) ^ (m + k + 1) else diff))
        ≤ (months : ℚ) * diff := by
      calc (∑ k in Finset.range months,
            (if 0 < i then diff / (1 + i) ^ (m + k + 1) else diff))
          ≤ ∑ _k in Finset.range months, diff :=
            Finset.sum_le_sum (fun k _ => by
              rw [if_pos hi]
              exact div_le_self hd (one_le_one_add_pow i hi.le _))
      _ = (months : ℚ) * diff := by
            simp [Finset.sum_const, Finset.card_range, nsmul_eq_mul]
    have hsum : undiscounted_sum ((months, diff) :: rest)
        = (months : ℚ) * diff + undiscounted_sum rest := by
      simp [undiscounted_sum]
    rw [hsum]
    simp only [pvAux]
    linarith

/-! ### Claim theorems on the leaf functions -/

/-- C1: for every principal `P ≥ 0`, annual rate `R ≥ 0` and term `N > 0`
years, the monthly payment returned by `pmt` times the number of monthly
payment periods is at least `P` when `R > 0`, and exactly `P` when `R = 0`. -/
theorem pmt_total_covers_principal (P R : ℚ) (N : ℕ) (hP : 0 ≤ P)
    (hR : 0 ≤ R) (hN : 0 < N) :
    (0 < R → P ≤ pmt R N P * ((N * 12 : ℕ) : ℚ)) ∧
    (R = 0 → pmt R N P * ((N * 12 : ℕ) : ℚ) = P) := by
  have hn : 0 < N * 12 := by omega
  constructor
  · intro _
    rw [pmt_eq_pmtR]
    exact pmtR_total_ge (R / 100 / 12) P (N * 12) (by positivity) hP hn
  · intro h0
    subst h0
    have h : (0 : ℚ) / 100 / 12 = 0 := by norm_num
    rw [pmt_eq_pmtR, h]
    exact pmtR_zero_rate P (N * 12) hn

theorem pmt_total_covers_principal_witness :
    (1200 : ℚ) ≤ pmt 12 1 1200 * ((1 * 12 : ℕ) : ℚ) :=
  (pmt_total_covers_principal 1200 12 1 (by norm_num) (by norm_num)
    (by norm_num)).1 (by norm_num)

/-- C10: the payment is monotone non-decreasing in the annual rate (for
non-negative rates), and consequently every yearly payment difference
`pmt base - pmt stepped` of a temporary buydown is non-negative whenever the
stepped rate is non-negative. -/
theorem pmt_rate_monotone (P : ℚ) (N : ℕ) (hP : 0 ≤ P) (hN : 0 < N) :
    (∀ R₁ R₂ : ℚ, 0 ≤ R₁ → R₁ ≤ R₂ → pmt R₁ N P ≤ pmt R₂ N P) ∧
    (∀ (base : ℚ) (scheme : BuydownScheme),
      ∀ r ∈ temp_buydown_yearly_rates base scheme, 0 ≤ r →
        0 ≤ pmt base N P - pmt r N P) := by
  have hn : 0 < N * 12 := by omega
  have mono : ∀ R₁ R₂ : ℚ, 0 ≤ R₁ → R₁ ≤ R₂ → pmt R₁ N P ≤ pmt R₂ N P := by
    intro R₁ R₂ h1 h12
    rw [pmt_eq_pmtR, pmt_eq_pmtR]
    have hr1 : (0 : ℚ) ≤ R₁ / 100 / 12 := by positivity
    refine pmtR_mono _ _ P (N * 12) hP (by linarith) ?_ hn
    gcongr
  refine ⟨mono, ?_⟩
  intro base scheme r hr hr0
  have hrb : r ≤ base := by
    cases scheme with
    | Permanent => simp [temp_buydown_yearly_rates] at hr
    | TwoOne =>
      simp [temp_buydown_yearly_rates] at hr
      rcases hr with h | h <;> rw [h] <;> linarith
    | ThreeTwoOne =>
      simp [temp_buydown_yearly_rates] at hr
      rcases hr with h | h | h <;> rw [h] <;> linarith
  have := mono r base hr0 hrb
  linarith

theorem pmt_rate_monotone_witness : pmt 0 1 1200 ≤ pmt 12 1 1200 :=
  (pmt_rate_monotone 1200 1 (by norm_num) (by norm_num)).1 0 12
    (by norm_num) (by norm_num)

/-- C3: the present value of a list of non-negative monthly payment
differences is at most their undiscounted sum when the base rate is positive,
and exactly the undiscounted sum when the base rate is zero. -/
theorem present_value_le_undiscounted (diffs : List (ℕ × ℚ)) (R : ℚ) (t : ℕ)
    (hd : ∀ p ∈ diffs, 0 ≤ p.2) :
    (0 < R → present_value_of_diffs diffs R t ≤ undiscounted_sum diffs) ∧
    present_value_of_diffs diffs 0 t = undiscounted_sum diffs := by
  constructor
  · intro hR
    have hi : 0 < R / 100 / 12 := by positivity
    exact pvAux_le _ hi diffs hd 0
  · have h0 : (0 : ℚ) / 100 / 12 = 0 := by norm_num
    unfold present_value_of_diffs
    rw [h0]
    exact pvAux_zero_rate diffs 0

theorem present_value_le_undiscounted_witness :
    present_value_of_diffs [(12, 1)] 12 1 ≤ undiscounted_sum [(12, 1)] :=
  (present_value_le_undiscounted [(12, 1)] 12 1 (by decide)).1 (by norm_num)

/-- C5: the VA funding fee is tiered at down-payment-fraction breakpoints
`0.05` and `0.10` with strict less-than comparisons, subsequent use is dearer
than first use at the lowest tier, and in particular
`va_funding_fee_pct 0.03 true = 0.0215` and
`va_funding_fee_pct 0.12 false = 0.015`. -/
theorem va_funding_fee_tiers :
    (∀ (d : ℚ) (fu : Bool),
      va_funding_fee_pct d fu =
        if d < 0.05 then (if fu then 0.0215 else 0.036)
        else if d < 0.10 then (if fu then 0.015 else 0.0175)
        else (if fu then 0.0125 else 0.015)) ∧
    va_funding_fee_pct 0.03 true = 0.0215 ∧
    va_funding_fee_pct 0.12 false = 0.015 ∧
    va_funding_fee_pct 0.03 true < va_funding_fee_pct 0.03 false := by
  refine ⟨?_, by norm_num [va_funding_fee_pct],
    by norm_num [va_funding_fee_pct], by norm_num [va_funding_fee_pct]⟩
  intro d fu
  cases fu <;> simp [va_funding_fee_pct]

/-- C6: Conventional eligibility is exactly score ≥ minimum, DTI ≤ maximum,
and no bankruptcy or foreclosure in window; FHA eligibility is exactly
score ≥ minimum and DTI ≤ maximum (it reads no derogatory flags, as its
argument list shows); the spec's concrete borrower examples hold. -/
theorem eligibility_characterization :
    (∀ (cs : ℤ) (dti : ℚ) (mc : ℤ) (md : ℚ) (bk fc : Bool),
      conv_ok cs dti mc md bk fc = true ↔
        (mc ≤ cs ∧ dti ≤ md ∧ bk = false ∧ fc = false)) ∧
    (∀ (cs : ℤ) (dti : ℚ) (mf : ℤ) (md : ℚ),
      fha_ok cs dti mf md = true ↔ (mf ≤ cs ∧ dti ≤ md)) ∧
    conv_ok 600 0.40 620 0.45 false false = false ∧
    fha_ok 600 0.40 580 0.50 = true := by
  refine ⟨?_, ?_, by norm_num [conv_ok], by norm_num [fha_ok]⟩
  · intro cs dti mc md bk fc
    simp [conv_ok, Bool.and_eq_true, decide_eq_true_iff,
      Bool.not_eq_true', and_assoc]
  · intro cs dti mf md
    simp [fha_ok, Bool.and_eq_true, decide_eq_true_iff]

/-- C7 counterexample: the `pmt` of `mortgage_analyzer_app_basic.py`, called
with a positive rate and a 0-year term, raises `ZeroDivisionError`
(modelled by `none`) instead of returning 0, because its `n == 0` handling
sits inside the `r == 0` branch only. -/
theorem pmt_basic_zero_term_raises : pmt_basic 5 0 100 = none := by
  norm_num [pmt_basic]

/-- C7 (amended): the `pmt` of `mortgage_analyzer_app.py` and of the enhanced
variant returns 0 for a 0-year term at every rate, and its fault-aware model
never raises there, because the `n == 0` guard is checked first; the basic
variant's `pmt` returns 0 for a 0-year term only at rate 0, and raises
division-by-zero (`none`) at every nonzero rate. -/
theorem pmt_zero_term_guarded :
    (∀ R P : ℚ, pmt R 0 P = 0) ∧
    (∀ R P : ℚ, pmt_checked R 0 P = some 0) ∧
    (∀ P : ℚ, pmt_basic 0 0 P = some 0) ∧
    (∀ R P : ℚ, R ≠ 0 → pmt_basic R 0 P = none) := by
  refine ⟨fun R P => rfl, fun R P => rfl,
    fun P => by norm_num [pmt_basic], ?_⟩
  intro R P hR
  have hr : ¬ (R / 100 / 12 = 0) := by
    rw [monthly_rate_zero_iff]; exact hR
  simp [pmt_basic, hr]

theorem pmt_zero_term_guarded_witness : pmt_basic 7 0 100 = none :=
  pmt_zero_term_guarded.2.2.2 7 100 (by norm_num)

/-- C9: there is no input validation in the model: a negative note rate (the
per-scenario Note Rate widget carries no lower bound) flows straight into
`pmt`, which silently produces a finite positive number rather than any
validation error. -/
theorem negative_rate_silent_result :
    0 < pmt (-6) 1 1200 ∧ pmt (-6) 1 1200 < 100 := by
  constructor <;> norm_num [pmt]

/-! ### The amortization engine -/

/-- Modelled from the spec: an `AmortizationRow` (§3) of the
`AmortizationEngine`, which has no implementation under `src/`.  The escrow
components the spec lists in a row are orthogonal constants passed through to
rendering and are omitted here; `payment` is the scheduled monthly outflow
(base payment plus extra principal). -/
structure AmortRow where
  month : ℕ
  payment : ℚ
  interest : ℚ
  principal : ℚ
  balance : ℚ
deriving DecidableEq

/-- Modelled from the spec: the roll-forward loop of
`AmortizationEngine.buildSchedule` (§4.3): each month
`interest = balance × monthlyRate`,
`principal = basePayment − interest + extraPrincipal` capped so it never
exceeds the remaining balance, `balance −= principal`; iteration stops once
the balance is within `eps` of zero.  `fuel` is the remaining month budget
(§5 bounds the engine by termYears × 12 iterations); `m` is the 1-based
month index. -/
def buildScheduleAux (r pay extra eps : ℚ) : ℕ → ℚ → ℕ → List AmortRow
  | 0, _, _ => []
  | fuel + 1, bal, m =>
    if bal ≤ eps then []
    else
      { month := m, payment := pay + extra, interest := bal * r,
        principal := min (pay - bal * r + extra) bal,
        balance := bal - min (pay - bal * r + extra) bal } ::
        buildScheduleAux r pay extra eps fuel
          (bal - min (pay - bal * r + extra) bal) (m + 1)

/-- Modelled from the spec: `buildSchedule(loanAmount, annualRatePct,
termYears, extraPrincipalMonthly, ...)` (§4.3), consuming `pmt` for the base
payment, with at most `termYears * 12` iterations (§5). -/
def buildSchedule (loanAmount rate_annual_pct extra_principal eps : ℚ)
    (termYears : ℕ) : List AmortRow :=
  buildScheduleAux (rate_annual_pct / 100 / 12)
    (pmt rate_annual_pct termYears loanAmount) extra_principal eps
    (termYears * 12) loanAmount 1

/-- The running balance after the last emitted row (`b0` when no row was
emitted). -/
def finalBalance (rows : List AmortRow) (b0 : ℚ) : ℚ :=
  (rows.map AmortRow.balance).getLastD b0

theorem dropLast_cons_cons {α : Type} (a b : α) (l : List α) :
    (a :: b :: l).dropLast = a :: (b :: l).dropLast := rfl

theorem buildScheduleAux_chain (r pay extra eps : ℚ) (hr : 0 ≤ r)
    (hx : 0 ≤ extra) :
    ∀ (fuel : ℕ) (bal : ℚ) (m : ℕ), 0 ≤ bal → bal * r ≤ pay →
      List.Chain' (fun a b => b ≤ a)
        (bal ::
          (buildScheduleAux r pay extra eps fuel bal m).map AmortRow.balance) := by
  intro fuel
  induction fuel with
  | zero => intro bal m _ _; simp [buildScheduleAux]
  | succ fuel ih =>
    intro bal m hb hbr
    by_cases hle : bal ≤ eps
    · simp [buildScheduleAux, hle]
    · have hraw : 0 ≤ pay - bal * r + extra := by linarith
      have hprin : 0 ≤ min (pay - bal * r + extra) bal := le_min hraw hb
      have h1 : bal - min (pay - bal * r + extra) bal ≤ bal := by linarith
      have h2 : 0 ≤ bal - min (pay - bal * r + extra) bal := by
        have := min_le_right (pay - bal * r + extra) bal; linarith
      have h3 : (bal - min (pay - bal * r + extra) bal) * r ≤ pay :=
        le_trans (mul_le_mul_of_nonneg_right h1 hr) hbr
      have hch := ih (bal - min (pay - bal * r + extra) bal) (m + 1) h2 h3
      simp only [buildScheduleAux, if_neg hle, List.map_cons]
      exact List.chain'_cons.2 ⟨h1, hch⟩

theorem buildScheduleAux_final_le (r pay extra eps : ℚ) (hr : 0 ≤ r)
    (hx : 0 ≤ extra) (he : 0 ≤ eps) (hpay : 0 ≤ pay) :
    ∀ (fuel : ℕ) (bal : ℚ) (m : ℕ), 0 ≤ bal →
      bal * (1 + r) ^ fuel ≤ pay * (∑ j in Finset.range fuel, (1 + r) ^ j) →
      finalBalance (buildScheduleAux r pay extra eps fuel bal m) bal ≤ eps := by
  intro fuel
  induction fuel with
  | zero =>
    intro bal m hb hle
    simp only [buildScheduleAux, finalBalance, List.map_nil, List.getLastD_nil]
    simp only [pow_zero, mul_one, Finset.range_zero, Finset.sum_empty,
      mul_zero] at hle
    linarith
  | succ fuel ih =>
    intro bal m hb hle
    by_cases hbe : bal ≤ eps
    · simp [buildScheduleAux, hbe, finalBalance]
    · have h1r : (0 : ℚ) ≤ 1 + r := by linarith
      have hpow : (0 : ℚ) ≤ (1 + r) ^ fuel := pow_nonneg h1r fuel
      rw [Finset.sum_range_succ, pow_succ] at hle
      have h2 : 0 ≤ bal - min (pay - bal * r + extra) bal := by
        have := min_le_right (pay - bal * r + extra) bal; linarith
      have hkey : (bal - min (pay - bal * r + extra) bal) * (1 + r) ^ fuel
          ≤ pay * (∑ j in Finset.range fuel, (1 + r) ^ j) := by
        rcases le_total (pay - bal * r + extra) bal with hmin | hmin
        · rw [min_eq_left hmin]
          nlinarith [mul_nonneg hx hpow]
        · rw [min_eq_right hmin]
          have hS : (0 : ℚ) ≤ ∑ j in Finset.range fuel, (1 + r) ^ j :=
            Finset.sum_nonneg (fun j _ => pow_nonneg h1r j)
          simpa using mul_nonneg hpay hS
      have hrec := ih (bal - min (pay - bal * r + extra) bal) (m + 1) h2 hkey
      simp only [buildScheduleAux, if_neg hbe, finalBalance, List.map_cons,
        List.getLastD_cons]
      exact hrec

theorem buildScheduleAux_ne_nil (r pay extra eps : ℚ) (fuel : ℕ) (bal : ℚ)
    (m : ℕ) (h : buildScheduleAux r pay extra eps fuel bal m ≠ []) :
    eps < bal := by
  cases fuel with
  | zero => simp [buildScheduleAux] at h
  | succ fuel =>
    by_cases hbe : bal ≤ eps
    · simp [buildScheduleAux, hbe] at h
    · exact lt_of_not_le hbe

theorem buildScheduleAux_dropLast_gt (r pay extra eps : ℚ) :
    ∀ (fuel : ℕ) (bal : ℚ) (m : ℕ),
      ∀ row ∈ (buildScheduleAux r pay extra eps fuel bal m).dropLast,
        eps < row.balance := by
  intro fuel
  induction fuel with
  | zero => intro bal m row hrow; simp [buildScheduleAux] at hrow
  | succ fuel ih =>
    intro bal m row hrow
    by_cases hbe : bal ≤ eps
    · simp [buildScheduleAux, hbe] at hrow
    · simp only [buildScheduleAux, if_neg hbe] at hrow
      rcases htail : buildScheduleAux r pay extra eps fuel
          (bal - min (pay - bal * r + extra) bal) (m + 1) with _ | ⟨t, ts⟩
      · rw [htail] at hrow
        simp at hrow
      · rw [htail, dropLast_cons_cons] at hrow
        rcases List.mem_cons.1 hrow with hhd | htl
        · subst hhd
          have hne : buildScheduleAux r pay extra eps fuel
              (bal - min (pay - bal * r + extra) bal) (m + 1) ≠ [] := by
            rw [htail]; exact List.cons_ne_nil _ _
          simpa using buildScheduleAux_ne_nil r pay extra eps fuel _ (m + 1) hne
        · exact ih (bal - min (pay - bal * r + extra) bal) (m + 1) row
            (by rw [htail]; exact htl)

theorem buildScheduleAux_sum_principal (r pay extra eps : ℚ) :
    ∀ (fuel : ℕ) (bal : ℚ) (m : ℕ),
      ((buildScheduleAux r pay extra eps fuel bal m).map AmortRow.principal).sum
        = bal - finalBalance (buildScheduleAux r pay extra eps fuel bal m) bal := by
  intro fuel
  induction fuel with
  | zero => intro bal m; simp [buildScheduleAux, finalBalance]
  | succ fuel ih =>
    intro bal m
    by_cases hbe : bal ≤ eps
    · simp [buildScheduleAux, hbe, finalBalance]
    · have hrec := ih (bal - min (pay - bal * r + extra) bal) (m + 1)
      simp only [finalBalance] at hrec ⊢
      simp only [buildScheduleAux, if_neg hbe, List.map_cons, List.sum_cons,
        List.getLastD_cons]
      rw [hrec]
      ring

theorem buildScheduleAux_final_nonneg (r pay extra eps : ℚ) :
    ∀ (fuel : ℕ) (bal : ℚ) (m : ℕ), 0 ≤ bal →
      0 ≤ finalBalance (buildScheduleAux r pay extra eps fuel bal m) bal := by
  intro fuel
  induction fuel with
  | zero => intro bal m hb; simpa [buildScheduleAux, finalBalance] using hb
  | succ fuel ih =>
    intro bal m hb
    by_cases hbe : bal ≤ eps
    · simpa [buildScheduleAux, hbe, finalBalance] using hb
    · have h2 : 0 ≤ bal - min (pay - bal * r + extra) bal := by
        have := min_le_right (pay - bal * r + extra) bal; linarith
      have hrec := ih (bal - min (pay - bal * r + extra) bal) (m + 1) h2
      simp only [finalBalance] at hrec ⊢
      simp only [buildScheduleAux, if_neg hbe, List.map_cons,
        List.getLastD_cons]
      exact hrec

/-- C2: for every schedule the engine generates, the running balances are
non-increasing, the final balance is within `eps` of zero, every row except
possibly the last has balance strictly above `eps` (the schedule stops at the
first month within `eps` of zero), and the principal portions sum to the loan
amount within `eps`.  Modelled from the spec (the engine is not in `src/`). -/
theorem buildSchedule_invariants (L rate extra eps : ℚ) (years : ℕ)
    (hL : 0 ≤ L) (hr : 0 ≤ rate) (hx : 0 ≤ extra) (he : 0 ≤ eps)
    (hy : 0 < years) :
    List.Chain' (fun a b => b ≤ a)
      (L :: (buildSchedule L rate extra eps years).map AmortRow.balance) ∧
    |finalBalance (buildSchedule L rate extra eps years) L| ≤ eps ∧
    (∀ row ∈ (buildSchedule L rate extra eps years).dropLast,
      eps < row.balance) ∧
    |((buildSchedule L rate extra eps years).map AmortRow.principal).sum - L|
      ≤ eps := by
  have hn : 0 < years * 12 := by omega
  have hrm : (0 : ℚ) ≤ rate / 100 / 12 := by positivity
  have hpay0 : 0 ≤ pmt rate years L := by
    rw [pmt_eq_pmtR]; exact pmtR_nonneg _ _ _ hrm hL
  have hint : L * (rate / 100 / 12) ≤ pmt rate years L := by
    rw [pmt_eq_pmtR]; exact interest_le_pmtR _ _ _ hrm hL hn
  have hannuity : L * (1 + rate / 100 / 12) ^ (years * 12)
      ≤ pmt rate years L *
        (∑ j in Finset.range (years * 12), (1 + rate / 100 / 12) ^ j) := by
    rw [pmt_eq_pmtR, pmtR_mul_geomS _ _ _ (by linarith) hn]
  have hfin_le := buildScheduleAux_final_le (rate / 100 / 12)
    (pmt rate years L) extra eps hrm hx he hpay0 (years * 12) L 1 hL hannuity
  have hfin_ge := buildScheduleAux_final_nonneg (rate / 100 / 12)
    (pmt rate years L) extra eps (years * 12) L 1 hL
  rw [show buildSchedule L rate extra eps years
      = buildScheduleAux (rate / 100 / 12) (pmt rate years L) extra eps
          (years * 12) L 1 from rfl]
  refine ⟨?_, ?_, ?_, ?_⟩
  · exact buildScheduleAux_chain _ _ _ _ hrm hx (years * 12) L 1 hL hint
  · rw [abs_le]
    exact ⟨by linarith, hfin_le⟩
  · exact buildScheduleAux_dropLast_gt _ _ _ _ (years * 12) L 1
  · rw [buildScheduleAux_sum_principal, abs_le]
    constructor <;> linarith

theorem buildSchedule_invariants_witness :
    List.Chain' (fun a b => b ≤ a)
      ((1200 : ℚ) :: (buildSchedule 1200 0 0 0 1).map AmortRow.balance) :=
  (buildSchedule_invariants 1200 0 0 0 1 (by norm_num) (by norm_num)
    (by norm_num) (by norm_num) (by norm_num)).1

/-! ### The per-scenario composition of `mortgage_analyzer_app.py`
(the loop body, lines 137-248) -/

/-- Program tags; `prog_hint` only ever produces the first three, `USDA`
appears in the government-program warning check (line 211). -/
inductive Program
  | Conventional
  | FHA
  | VA
  | USDA
deriving DecidableEq

/-- Incentive kinds (line 110). -/
inductive IncentiveType
  | ClosingCredit
  | PriceReduction
  | RateBuydown
deriving DecidableEq

/-- The advisory warnings of lines 210-221, as tags for their messages. -/
inductive ScenarioWarning
  | GovPrimaryOccupancy
  | HighLtvConventional
  | HighLtvFHA
  | VaNotEligible
  | BuydownShortfall
deriving DecidableEq

/-- The sidebar and main-form inputs shared by every scenario slot. -/
structure Globals where
  price : ℚ
  hoa : ℚ
  occ : Occupancy
  credit_score : ℤ
  gross_monthly_income : ℚ
  existing_monthly_debts : ℚ
  loan_term : ℕ
  va_eligible : Bool
  va_first_use : Bool
  recent_bk : Bool
  recent_fc : Bool
  inc_type : IncentiveType
  inc_amount : ℚ
  buydown_scheme : BuydownScheme
  closing_cost_pct : ℚ
  tax_rate : ℚ
  ins_rate : ℚ
  pmi_rate : ℚ
  fha_ufmip_pct : ℚ
  fha_annual_mip : ℚ
  min_credit_conv : ℤ
  min_credit_fha : ℤ
  min_credit_va : ℤ
  max_dti_conv : ℚ
  max_dti_fha : ℚ
  max_dti_va : ℚ
  points_pct : ℚ
deriving DecidableEq

/-- The per-slot widget values (lines 139-142). -/
structure ScenarioInputs where
  scen_rate : ℚ
  scen_use_inc : Bool
  scen_down : ℚ
deriving DecidableEq

/-- The `buydown_details` dict of line 198. -/
structure BuydownDetails where
  scheme : BuydownScheme
  yearly_payments : List (ℕ × ℚ × ℚ)
  pv_cost : ℚ
  sum_cost : ℚ
deriving DecidableEq

/-- The per-scenario record appended at lines 223-248 (display-only string
fields omitted). -/
structure ScenarioResult where
  scen_price : ℚ
  base_loan : ℚ
  loan_amount : ℚ
  financed_upfront : ℚ
  prog : Program
  monthly_tax : ℚ
  monthly_ins : ℚ
  pmi_mip : ℚ
  monthly_pi : ℚ
  piti : ℚ
  dti : ℚ
  closing_credit : ℚ
  est_closing_costs : ℚ
  cash_to_close : ℚ
  conv_ok : Bool
  fha_ok : Bool
  va_ok : Bool
  buydown_details : Option BuydownDetails
  warnings : List ScenarioWarning
deriving DecidableEq

/-- `scen_price` (lines 126/144): the price less the incentive amount when a
PriceReduction incentive is used by this scenario. -/
def scenPrice (g : Globals) (s : ScenarioInputs) : ℚ :=
  if g.inc_type = .PriceReduction ∧ s.scen_use_inc = true then
    g.price - g.inc_amount
  else g.price

/-- `closing_credit` (line 145). -/
def closingCredit (g : Globals) (s : ScenarioInputs) : ℚ :=
  if g.inc_type = .ClosingCredit ∧ s.scen_use_inc = true then g.inc_amount
  else 0

/-- `base_loan` (line 147). -/
def baseLoan (g : Globals) (s : ScenarioInputs) : ℚ :=
  max 0 (scenPrice g s - s.scen_down)

/-- `prog_hint` (line 150). -/
def prog_hint (g : Globals) : Program :=
  if g.va_eligible = true then .VA
  else if g.credit_score < g.min_credit_conv then .FHA
  else .Conventional

/-- `upfront_costs_financed` (lines 152-167): the financed FHA UFMIP or VA
funding fee (`down_frac` guards division by a zero price as the source does). -/
def financedUpfront (g : Globals) (s : ScenarioInputs) : ℚ :=
  if prog_hint g = .FHA then baseLoan g s * g.fha_ufmip_pct
  else if prog_hint g = .VA then
    baseLoan g s * va_funding_fee_pct
      (if scenPrice g s ≠ 0 then s.scen_down / scenPrice g s else 0)
      g.va_first_use
  else 0

/-- `loan_amount` (lines 154/158/165): base loan plus the financed fee. -/
def loanAmount (g : Globals) (s : ScenarioInputs) : ℚ :=
  baseLoan g s + financedUpfront g s

/-- `ltv` (line 172). -/
def ltv (g : Globals) (s : ScenarioInputs) : ℚ :=
  if scenPrice g s ≠ 0 then loanAmount g s / scenPrice g s else 0

/-- `pmi_mip` (lines 173-178). -/
def pmiMip (g : Globals) (s : ScenarioInputs) : ℚ :=
  if prog_hint g = .Conventional ∧ 0.80 < ltv g s then
    loanAmount g s * g.pmi_rate / 12
  else if prog_hint g = .FHA then loanAmount g s * g.fha_annual_mip / 12
  else 0

/-- `monthly_pi` (line 180). -/
def monthlyPI (g : Globals) (s : ScenarioInputs) : ℚ :=
  pmt s.scen_rate g.loan_term (loanAmount g s)

/-- `buydown_details` (lines 182-198).  Note the `i == 1` conjunct in the
source condition: the valuator only runs for the first scenario slot. -/
def buydownDetails (g : Globals) (s : ScenarioInputs) (i : ℕ) :
    Option BuydownDetails :=
  if g.inc_type = .RateBuydown ∧ s.scen_use_inc = true ∧ i = 1 ∧
      (g.buydown_scheme = .TwoOne ∨ g.buydown_scheme = .ThreeTwoOne) then
    let yr_rates := if g.buydown_scheme = .TwoOne then
        [s.scen_rate - 2, s.scen_rate - 1]
      else [s.scen_rate - 3, s.scen_rate - 2, s.scen_rate - 1]
    let diffs := yr_rates.map
      (fun rr => ((12 : ℕ), monthlyPI g s - pmt rr g.loan_term (loanAmount g s)))
    some { scheme := g.buydown_scheme,
           yearly_payments := (yr_rates.enumFrom 1).map
             (fun p => (p.1, p.2, pmt p.2 g.loan_term (loanAmount g s))),
           pv_cost := present_value_of_diffs diffs s.scen_rate g.loan_term,
           sum_cost := (diffs.map (fun p => 12 * p.2)).sum }
  else none

/-- `monthly_tax` (line 169). -/
def monthlyTax (g : Globals) (s : ScenarioInputs) : ℚ :=
  scenPrice g s * g.tax_rate / 12

/-- `monthly_ins` (line 170). -/
def monthlyIns (g : Globals) (s : ScenarioInputs) : ℚ :=
  scenPrice g s * g.ins_rate / 12

/-- `piti` (line 200). -/
def pitiOf (g : Globals) (s : ScenarioInputs) : ℚ :=
  monthlyPI g s + monthlyTax g s + monthlyIns g s + pmiMip g s + g.hoa

/-- `dti` (line 201): zero sentinel on zero income. -/
def dtiOf (g : Globals) (s : ScenarioInputs) : ℚ :=
  if g.gross_monthly_income ≠ 0 then
    (g.existing_monthly_debts + pitiOf g s) / g.gross_monthly_income
  else 0

/-- `est_closing_costs` (line 207). -/
def estClosingCosts (g : Globals) (s : ScenarioInputs) : ℚ :=
  scenPrice g s * g.closing_cost_pct + g.points_pct * baseLoan g s

/-- `cash_to_close` (line 208). -/
def cashToClose (g : Globals) (s : ScenarioInputs) : ℚ :=
  s.scen_down + max 0 (estClosingCosts g s - closingCredit g s)

/-- `warning_msgs` (lines 210-221), in source order. -/
def warningsOf (g : Globals) (s : ScenarioInputs) (i : ℕ) :
    List ScenarioWarning :=
  (if g.occ ≠ .Primary ∧
      (prog_hint g = .FHA ∨ prog_hint g = .VA ∨ prog_hint g = .USDA) then
    [ScenarioWarning.GovPrimaryOccupancy] else []) ++
  (if prog_hint g = .Conventional ∧ 0.95 < ltv g s then
    [ScenarioWarning.HighLtvConventional] else []) ++
  (if prog_hint g = .FHA ∧ 0.965 < ltv g s then
    [ScenarioWarning.HighLtvFHA] else []) ++
  (if prog_hint g = .VA ∧ g.va_eligible = false then
    [ScenarioWarning.VaNotEligible] else []) ++
  (if g.inc_type = .RateBuydown ∧ s.scen_use_inc = true then
    match buydownDetails g s i with
    | some bd =>
        if g.inc_amount < bd.pv_cost then [ScenarioWarning.BuydownShortfall]
        else []
    | none => []
  else [])

/-- The whole loop body (lines 137-248) for scenario slot `i`. -/
def composeScenario (g : Globals) (s : ScenarioInputs) (i : ℕ) :
    ScenarioResult :=
  { scen_price := scenPrice g s,
    base_loan := baseLoan g s,
    loan_amount := loanAmount g s,
    financed_upfront := financedUpfront g s,
    prog := prog_hint g,
    monthly_tax := monthlyTax g s,
    monthly_ins := monthlyIns g s,
    pmi_mip := pmiMip g s,
    monthly_pi := monthlyPI g s,
    piti := pitiOf g s,
    dti := dtiOf g s,
    closing_credit := closingCredit g s,
    est_closing_costs := estClosingCosts g s,
    cash_to_close := cashToClose g s,
    conv_ok := conv_ok g.credit_score (dtiOf g s) g.min_credit_conv
      g.max_dti_conv g.recent_bk g.recent_fc,
    fha_ok := fha_ok g.credit_score (dtiOf g s) g.min_credit_fha
      g.max_dti_fha,
    va_ok := va_ok g.va_eligible g.credit_score (dtiOf g s) g.min_credit_va
      g.max_dti_va g.occ,
    buydown_details := buydownDetails g s i,
    warnings := warningsOf g s i }

/-- A concrete input set: an active 2-1 RateBuydown incentive, scaled to a
1-year term; `prog_hint` resolves to Conventional, so no fee is financed. -/
def gEx : Globals :=
  { price := 100000, hoa := 0, occ := .Primary, credit_score := 700,
    gross_monthly_income := 10000, existing_monthly_debts := 0, loan_term := 1,
    va_eligible := false, va_first_use := true, recent_bk := false,
    recent_fc := false, inc_type := .RateBuydown, inc_amount := 1,
    buydown_scheme := .TwoOne, closing_cost_pct := 0, tax_rate := 0,
    ins_rate := 0, pmi_rate := 0, fha_ufmip_pct := 0, fha_annual_mip := 0,
    min_credit_conv := 620, min_credit_fha := 580, min_credit_va := 580,
    max_dti_conv := 1, max_dti_fha := 1, max_dti_va := 1, points_pct := 0 }

/-- A concrete scenario-slot input using the builder incentive. -/
def sEx : ScenarioInputs :=
  { scen_rate := 6, scen_use_inc := true, scen_down := 20000 }

/-- Embedding of the mortgage-insurance computation of
`mortgage_analyzer_app_basic.py` (lines 86-89): `ltv` divides the unmodified
loan amount by the price (the basic variant finances no upfront fee),
Conventional PMI uses the configured `pmi_rate` when `ltv > 0.8`, and the
FHA branch hardcodes `0.0055` — the basic variant has no configurable
annual MIP rate at all. -/
def pmi_mip_basic (prog : Program) (loan_amount scen_price pmi_rate : ℚ) : ℚ :=
  let ltv := if scen_price ≠ 0 then loan_amount / scen_price else 0
  if prog = .Conventional ∧ 0.8 < ltv then loan_amount * pmi_rate / 12
  else if prog = .FHA then loan_amount * 0.0055 / 12
  else 0

/-- C4 counterexample: in `mortgage_analyzer_app_basic.py` the monthly FHA
charge uses a hardcoded 0.55% annual MIP: at a 120000 loan it is 55
whatever the configuration says (here a 0.6% PMI rate is configured), not
`loanAmount * annualMIPRate/12` for a caller-configured MIP rate — e.g. a
1% annual MIP would give 100. -/
theorem pmi_mip_basic_fha_hardcoded :
    pmi_mip_basic Program.FHA 120000 150000 0.006 = 55 ∧
    pmi_mip_basic Program.FHA 120000 150000 0.006 ≠ 120000 * 0.01 / 12 := by
  constructor <;> norm_num [pmi_mip_basic]

/-- C4 (amended): in `mortgage_analyzer_app.py` (and the enhanced variant)
the monthly mortgage-insurance charge is `loanAmount * annualPMIRate/12` for
Conventional exactly when LTV exceeds 0.80 (else 0),
`loanAmount * annualMIPRate/12` with the caller-configured FHA annual MIP
rate for FHA regardless of LTV, and 0 for VA and any other program, where
LTV divides the post-upfront-fee-financing loan amount (base loan plus
financed fee) by the price.  The basic variant keeps the same Conventional
and VA/other behaviour (over its fee-free loan amount) but charges FHA a
hardcoded 0.55% annual MIP, not a caller-configured rate. -/
theorem pmi_mip_characterization (g : Globals) (s : ScenarioInputs) (i : ℕ)
    (hp : 0 < (composeScenario g s i).scen_price) :
    (composeScenario g s i).loan_amount
      = (composeScenario g s i).base_loan
        + (composeScenario g s i).financed_upfront ∧
    ((composeScenario g s i).prog = .Conventional →
      (composeScenario g s i).pmi_mip =
        if 0.80 < (composeScenario g s i).loan_amount
            / (composeScenario g s i).scen_price then
          (composeScenario g s i).loan_amount * g.pmi_rate / 12
        else 0) ∧
    ((composeScenario g s i).prog = .FHA →
      (composeScenario g s i).pmi_mip
        = (composeScenario g s i).loan_amount * g.fha_annual_mip / 12) ∧
    ((composeScenario g s i).prog = .VA ∨ (composeScenario g s i).prog = .USDA →
      (composeScenario g s i).pmi_mip = 0) ∧
    (∀ loan price pr : ℚ,
      pmi_mip_basic Program.FHA loan price pr = loan * 0.0055 / 12) ∧
    (∀ loan price pr : ℚ, pmi_mip_basic Program.VA loan price pr = 0 ∧
      pmi_mip_basic Program.USDA loan price pr = 0) ∧
    (∀ loan price pr : ℚ, 0 < price →
      pmi_mip_basic Program.Conventional loan price pr
        = if 0.8 < loan / price then loan * pr / 12 else 0) := by
  have hp' : 0 < scenPrice g s := hp
  have hpz : scenPrice g s ≠ 0 := ne_of_gt hp'
  have hltv : ltv g s = loanAmount g s / scenPrice g s := if_pos hpz
  refine ⟨rfl, ?_, ?_, ?_, ?_, ?_, ?_⟩
  · intro hc
    have hc' : prog_hint g = Program.Conventional := hc
    show pmiMip g s = _
    rw [show (composeScenario g s i).loan_amount = loanAmount g s from rfl,
      show (composeScenario g s i).scen_price = scenPrice g s from rfl,
      ← hltv]
    simp [pmiMip, hc']
  · intro hf
    have hf' : prog_hint g = Program.FHA := hf
    show pmiMip g s = _
    rw [show (composeScenario g s i).loan_amount = loanAmount g s from rfl]
    simp [pmiMip, hf']
  · intro hv
    show pmiMip g s = 0
    rcases hv with h | h <;>
      · have h' : prog_hint g = _ := h
        simp [pmiMip, h']
  · intro loan price pr
    simp [pmi_mip_basic]
  · intro loan price pr
    constructor <;> simp [pmi_mip_basic]
  · intro loan price pr hpr
    have hz : price ≠ 0 := ne_of_gt hpr
    simp [pmi_mip_basic, hz]

theorem pmi_mip_characterization_witness :
    (composeScenario gEx sEx 1).loan_amount
      = (composeScenario gEx sEx 1).base_loan
        + (composeScenario gEx sEx 1).financed_upfront :=
  (pmi_mip_characterization gEx sEx 1 (by
    rw [show (composeScenario gEx sEx 1).scen_price = (100000 : ℚ) from rfl]
    norm_num)).1

/-- C8 counterexample: scenario slot 3 with an active temporary (2-1)
RateBuydown incentive gets no buydown figures attached at all, because the
source condition (line 183) requires `i == 1`. -/
theorem buydown_not_run_third_slot :
    (composeScenario gEx sEx 3).buydown_details = none := by
  show buydownDetails gEx sEx 3 = none
  simp [buydownDetails]

theorem shortfall_mem_warnings (g : Globals) (s : ScenarioInputs) (i : ℕ)
    (hT : g.inc_type = .RateBuydown) (hU : s.scen_use_inc = true)
    (bd : BuydownDetails) (hbd : buydownDetails g s i = some bd) :
    (ScenarioWarning.BuydownShortfall ∈ warningsOf g s i ↔
      g.inc_amount < bd.pv_cost) := by
  unfold warningsOf
  rw [hbd]
  simp only [hT, hU, and_self, if_true, List.mem_append]
  split_ifs <;> simp_all

/-- C8 (amended): the BuydownValuator runs only for the first scenario slot:
for slot 1 with an active temporary-scheme RateBuydown its figures are
attached, the fundable-shortfall warning is attached exactly when the
incentive amount is below the computed present value (the payment figures
are still computed either way), and every other slot gets no buydown
figures even when the incentive is active for it. -/
theorem buydown_first_slot_only (g : Globals) (s : ScenarioInputs)
    (hT : g.inc_type = .RateBuydown) (hU : s.scen_use_inc = true)
    (hS : g.buydown_scheme = .TwoOne ∨ g.buydown_scheme = .ThreeTwoOne) :
    (∃ bd : BuydownDetails,
      (composeScenario g s 1).buydown_details = some bd ∧
      (ScenarioWarning.BuydownShortfall ∈ (composeScenario g s 1).warnings ↔
        g.inc_amount < bd.pv_cost) ∧
      (composeScenario g s 1).monthly_pi
        = pmt s.scen_rate g.loan_term (composeScenario g s 1).loan_amount) ∧
    (∀ i : ℕ, i ≠ 1 → (composeScenario g s i).buydown_details = none) := by
  have hcond : g.inc_type = IncentiveType.RateBuydown ∧
      s.scen_use_inc = true ∧ (1 : ℕ) = 1 ∧
      (g.buydown_scheme = .TwoOne ∨ g.buydown_scheme = .ThreeTwoOne) :=
    ⟨hT, hU, rfl, hS⟩
  have hbd : ∃ bd, buydownDetails g s 1 = some bd := by
    unfold buydownDetails
    rw [if_pos hcond]
    exact ⟨_, rfl⟩
  obtain ⟨bd, hbd⟩ := hbd
  refine ⟨⟨bd, hbd, shortfall_mem_warnings g s 1 hT hU bd hbd, rfl⟩, ?_⟩
  intro i hi
  show buydownDetails g s i = none
  unfold buydownDetails
  rw [if_neg]
  rintro ⟨-, -, h1, -⟩
  exact hi h1

theorem buydown_first_slot_only_witness :
    ∃ bd : BuydownDetails,
      (composeScenario gEx sEx 1).buydown_details = some bd ∧
      (ScenarioWarning.BuydownShortfall ∈ (composeScenario gEx sEx 1).warnings ↔
        gEx.inc_amount < bd.pv_cost) ∧
      (composeScenario gEx sEx 1).monthly_pi
        = pmt sEx.scen_rate gEx.loan_term (composeScenario gEx sEx 1).loan_amount :=
  (buydown_first_slot_only gEx sEx rfl rfl (Or.inl rfl)).1

end Mortgage
